import Mathlib

/-!
Shallow embedding of the core pipeline of tensile (tensile.go): the consumer
loop with its error accounting and threshold check, the body-closing helper,
the dispatcher loop and the cancellation broadcast, together with proofs of
the behavioural properties claimed for them.

Go machine integers (int, int64) are modelled as Int: none of the verified
properties involves wrap-around, and the spec's data model speaks of plain
integers (byte sizes, counters).
-/

set_option autoImplicit false

namespace Tensile

/-- Identity of a failure record: either a transport-level error cause
    (the string of r.err) or an HTTP status code. -/
abbrev FailId := Sum String Int

/-- Embedding of the response struct (tensile.go:61-64) as received by the
    consumer: a worker sends either a transport failure (RoundTrip returned a
    non-nil error, in which case the embedded pointer to http.Response is nil)
    or an HTTP response carrying StatusCode, Status and ContentLength. -/
inductive ResultRec where
  | fail (cause : String)
  | resp (code : Int) (status : String) (contentLength : Int)
deriving DecidableEq, Repr

/-- State threaded through the consumer loop (tensile.go:144-176): the local
    conns and size totals, prevStatus, and the global numErr counter, plus
    observable ghost fields: how often killWorkers was invoked, how often the
    error-limit log line was printed, how many response bodies were closed,
    and the trace of drained failures (most recent first) with a flag telling
    whether that failure produced a per-failure log line. -/
structure CState where
  conns : Int
  size : Int
  prevStatus : Int
  numErr : Int
  killCount : Nat
  limitLogged : Nat
  closedBodies : Nat
  ftrace : List (FailId × Bool)
deriving DecidableEq, Repr

/-- checkMaxErr (tensile.go:132-142): increment numErr; when it has reached
    maxErr and maxErr is not the unlimited sentinel -1, invoke killWorkers,
    log the limit-reached line and report true. -/
def checkMaxErr (maxErr : Int) (s : CState) : CState × Bool :=
  let s1 := { s with numErr := s.numErr + 1 }
  if s1.numErr ≥ maxErr ∧ maxErr ≠ -1 then
    ({ s1 with killCount := s1.killCount + 1, limitLogged := s1.limitLogged + 1 }, true)
  else
    (s1, false)

/-- Result of one iteration of the consumer loop. -/
inductive StepRes where
  | next (s : CState)
  | stop (s : CState)
  | crash (s : CState)
deriving DecidableEq, Repr

/-- State carried by a step result. -/
def StepRes.state : StepRes → CState
  | .next s => s
  | .stop s => s
  | .crash s => s

/-- Whether a step result continues the loop. -/
def StepRes.isNext : StepRes → Bool
  | .next _ => true
  | .stop _ => false
  | .crash _ => false

/-- One iteration of the consumer loop body (tensile.go:151-173).
    Transport failure: log.Println(r.err) always fires; then checkMaxErr, and
    on the threshold the consumer returns (stop) without reaching
    r.closeBody(); otherwise r.closeBody() evaluates r.Body on a nil embedded
    http.Response pointer, a nil-pointer dereference (crash).
    Status code at least 400: log only when the code differs from prevStatus,
    update prevStatus, then checkMaxErr; on the threshold return without
    closing the body (stop), otherwise close the body and continue.
    Otherwise (success): add a non-negative ContentLength to size, increment
    conns, close the body and continue. -/
def consumerStep (maxErr : Int) (s : CState) (r : ResultRec) : StepRes :=
  match r with
  | .fail cause =>
    let s1 := { s with ftrace := (Sum.inl cause, true) :: s.ftrace }
    let c := checkMaxErr maxErr s1
    if c.2 then .stop c.1 else .crash c.1
  | .resp code _status cl =>
    if code ≥ 400 then
      let s1 := { s with ftrace := (Sum.inr code, decide (code ≠ s.prevStatus)) :: s.ftrace,
                         prevStatus := code }
      let c := checkMaxErr maxErr s1
      if c.2 then .stop c.1
      else .next { c.1 with closedBodies := c.1.closedBodies + 1 }
    else
      .next { s with size := s.size + (if cl ≥ 0 then cl else 0),
                     conns := s.conns + 1,
                     closedBodies := s.closedBodies + 1 }

/-- How a consumer run ended: the result channel was drained to its close,
    the consumer returned early on the error threshold, or it crashed with a
    nil-pointer dereference in closeBody. -/
inductive Outcome where
  | drained
  | early
  | crash
deriving DecidableEq, Repr

/-- Final state of a consumer run, how it ended, and how many records were
    taken off the result channel. -/
structure RunRes where
  final : CState
  outcome : Outcome
  processed : Nat
deriving DecidableEq, Repr

/-- The consumer loop (tensile.go:151-174) over the sequence of records the
    result channel delivers. -/
def consumerRun (maxErr : Int) (s : CState) : List ResultRec → RunRes
  | [] => ⟨s, .drained, 0⟩
  | r :: rs =>
    match consumerStep maxErr s r with
    | .next s1 =>
      let res := consumerRun maxErr s1 rs
      ⟨res.final, res.outcome, res.processed + 1⟩
    | .stop s1 => ⟨s1, .early, 1⟩
    | .crash s1 => ⟨s1, .crash, 1⟩

/-- Initial consumer state (tensile.go:147-150, numErr zero-valued global). -/
def initState : CState := ⟨0, 0, 0, 0, 0, 0, 0, []⟩

/-- consumer (tensile.go:145): run the loop from the initial state. -/
def consumer (maxErr : Int) (rs : List ResultRec) : RunRes :=
  consumerRun maxErr initState rs

/-- Classification of a record as the spec words it: a Failure is a record
    carrying a transport-level error or an HTTP status code of 400 or more;
    every other record is a Success. -/
def specFailure : ResultRec → Bool
  | .fail _ => true
  | .resp code _ _ => decide (code ≥ 400)

/-- Byte contribution of a record as the spec words it: a Success contributes
    its byte size when that size is non-negative and 0 otherwise; a Failure
    contributes nothing. -/
def specByte : ResultRec → Int
  | .fail _ => 0
  | .resp code _ cl => if code < 400 ∧ 0 ≤ cl then cl else 0

/-- Sum of the spec-side byte contributions of a list of records. -/
def specBytes (rs : List ResultRec) : Int := (rs.map specByte).sum

/-- Number of Success records in a list. -/
def countSuccess (rs : List ResultRec) : Nat := rs.countP (fun r => !specFailure r)

/-- Rolling-dedup correctness of a failure trace (most recent first): each
    failure was logged exactly when its identity differs from the failure
    drained just before it, and the oldest failure was logged. -/
def dedupOK : List (FailId × Bool) → Bool
  | [] => true
  | [(_, b)] => b
  | (i, b) :: p :: rest => (b == decide (i ≠ p.1)) && dedupOK (p :: rest)

/-- killWorkers (tensile.go:121-130): loop over a select with a default
    branch, so every iteration either places one signal in the buffered quit
    channel or returns at once. Modelled on the buffered channel alone (the
    worst case for the sender: no worker is currently receiving): fill
    pending signals out of capacity capa; the default branch means no
    iteration ever blocks, and totality of the function is the termination of
    the loop. -/
def killWorkers (capa fill : Nat) : Nat :=
  if fill < capa then killWorkers capa (fill + 1) else fill
termination_by capa - fill
decreasing_by simp_wf; omega

/-- Capacities of the three channels made in main. -/
structure Channels where
  reqCap : Nat
  respCap : Nat
  quitCap : Nat
deriving DecidableEq, Repr

/-- Channel construction in main (tensile.go:222-224): reqChan and respChan
    are unbuffered, quit is buffered with capacity max. -/
def mkChannels (max : Nat) : Channels := ⟨0, 0, max⟩

/-- Observable outcome of a dispatcher run: requests emitted on reqChan,
    construction errors logged, and whether the dispatcher crashed. -/
structure DispatchRes where
  emitted : Nat
  ctorErrLogs : Nat
  crashed : Bool
deriving DecidableEq, Repr

/-- Loop body of dispatcher (tensile.go:76-88), structurally recursive on the
    number of remaining iterations. ctorFails abstracts whether
    http.NewRequest(GET, urlStr, nil) returns an error: it depends only on
    the fixed urlStr, so it is the same at every index. quitAt i tells
    whether a quit signal is pending when iteration i reaches the select. On
    a construction failure the code logs the error and falls through with a
    nil req; unless the quit branch fires first, req.Header.Add then
    dereferences the nil pointer (crashed). -/
def dispatcherLoop (ctorFails : Bool) (quitAt : Nat → Bool) :
    Nat → Nat → DispatchRes → DispatchRes
  | _, 0, acc => acc
  | i, remaining + 1, acc =>
    let acc1 := if ctorFails then { acc with ctorErrLogs := acc.ctorErrLogs + 1 } else acc
    if quitAt i then acc1
    else if ctorFails then { acc1 with crashed := true }
    else dispatcherLoop ctorFails quitAt (i + 1) remaining
           { acc1 with emitted := acc1.emitted + 1 }

/-- dispatcher (tensile.go:73-89) over reqs iterations. -/
def dispatcher (reqs : Nat) (ctorFails : Bool) (quitAt : Nat → Bool) : DispatchRes :=
  dispatcherLoop ctorFails quitAt 0 reqs ⟨0, 0, false⟩

lemma step_numErr (maxErr : Int) (s : CState) (r : ResultRec) :
    (consumerStep maxErr s r).state.numErr = s.numErr + (if specFailure r then 1 else 0) := by
  cases r with
  | fail cause =>
    simp only [consumerStep, checkMaxErr, specFailure, if_true]
    split <;> simp [StepRes.state]
  | resp code status cl =>
    simp only [consumerStep, checkMaxErr, specFailure]
    by_cases h : code ≥ 400
    · simp only [h, if_true]
      split <;> simp [StepRes.state, h]
    · simp [h, StepRes.state]

lemma step_conns (maxErr : Int) (s : CState) (r : ResultRec) :
    (consumerStep maxErr s r).state.conns = s.conns + (if specFailure r then 0 else 1) := by
  cases r with
  | fail cause =>
    simp only [consumerStep, checkMaxErr, specFailure, if_true]
    split <;> simp [StepRes.state]
  | resp code status cl =>
    simp only [consumerStep, checkMaxErr, specFailure]
    by_cases h : code ≥ 400
    · simp only [h, if_true]
      split <;> simp [StepRes.state, h]
    · simp [h, StepRes.state]

lemma step_size (maxErr : Int) (s : CState) (r : ResultRec) :
    (consumerStep maxErr s r).state.size = s.size + specByte r := by
  cases r with
  | fail cause =>
    simp only [consumerStep, checkMaxErr, specByte]
    split <;> simp [StepRes.state]
  | resp code status cl =>
    simp only [consumerStep, checkMaxErr, specByte]
    by_cases h : code ≥ 400
    · have h' : ¬ code < 400 := by omega
      simp only [h, if_true]
      split <;> simp [StepRes.state, h']
    · have h' : code < 400 := by omega
      by_cases hc : (0 : Int) ≤ cl
      · simp [h, h', hc, StepRes.state, show cl ≥ 0 from hc]
      · simp [h, h', hc, StepRes.state, show ¬ cl ≥ 0 from hc]

lemma step_closed (maxErr : Int) (s : CState) (r : ResultRec) :
    (consumerStep maxErr s r).state.closedBodies
      = s.closedBodies + (if (consumerStep maxErr s r).isNext then 1 else 0) := by
  cases r with
  | fail cause =>
    simp only [consumerStep, checkMaxErr]
    split <;> simp [StepRes.state, StepRes.isNext]
  | resp code status cl =>
    simp only [consumerStep, checkMaxErr]
    by_cases h : code ≥ 400
    · simp only [h, if_true]
      split <;> simp [StepRes.state, StepRes.isNext]
    · simp [h, StepRes.state, StepRes.isNext]

lemma specByte_nonneg (r : ResultRec) : 0 ≤ specByte r := by
  cases r with
  | fail cause => simp [specByte]
  | resp code status cl =>
    simp only [specByte]
    split
    · next h => exact h.2
    · exact le_refl 0

lemma run_conns (maxErr : Int) (rs : List ResultRec) : ∀ s : CState,
    (consumerRun maxErr s rs).final.conns
      = s.conns + (countSuccess (rs.take (consumerRun maxErr s rs).processed) : Int) := by
  induction rs with
  | nil => intro s; simp [consumerRun, countSuccess]
  | cons r rs ih =>
    intro s
    have hc := step_conns maxErr s r
    rcases hstep : consumerStep maxErr s r with s1 | s1 | s1 <;>
      rw [hstep] at hc <;> simp only [StepRes.state] at hc
    · simp only [consumerRun, hstep, List.take_succ_cons]
      rw [ih s1, hc]
      by_cases h : specFailure r <;>
        simp [countSuccess, List.countP_cons, h] <;> ring
    · simp only [consumerRun, hstep, List.take_succ_cons, List.take_zero]
      rw [hc]
      by_cases h : specFailure r <;> simp [countSuccess, List.countP_cons, h]
    · simp only [consumerRun, hstep, List.take_succ_cons, List.take_zero]
      rw [hc]
      by_cases h : specFailure r <;> simp [countSuccess, List.countP_cons, h]

lemma run_size (maxErr : Int) (rs : List ResultRec) : ∀ s : CState,
    (consumerRun maxErr s rs).final.size
      = s.size + specBytes (rs.take (consumerRun maxErr s rs).processed) := by
  induction rs with
  | nil => intro s; simp [consumerRun, specBytes]
  | cons r rs ih =>
    intro s
    have hc := step_size maxErr s r
    rcases hstep : consumerStep maxErr s r with s1 | s1 | s1 <;>
      rw [hstep] at hc <;> simp only [StepRes.state] at hc
    · simp only [consumerRun, hstep, List.take_succ_cons]
      rw [ih s1, hc]
      simp only [specBytes, List.map_cons, List.sum_cons]
      ring
    · simp [consumerRun, hstep, specBytes, hc]
    · simp [consumerRun, hstep, specBytes, hc]

lemma run_numErr (maxErr : Int) (rs : List ResultRec) : ∀ s : CState,
    (consumerRun maxErr s rs).final.numErr
      = s.numErr
        + ((rs.take (consumerRun maxErr s rs).processed).countP specFailure : Int) := by
  induction rs with
  | nil => intro s; simp [consumerRun]
  | cons r rs ih =>
    intro s
    have hc := step_numErr maxErr s r
    rcases hstep : consumerStep maxErr s r with s1 | s1 | s1 <;>
      rw [hstep] at hc <;> simp only [StepRes.state] at hc
    · simp only [consumerRun, hstep, List.take_succ_cons]
      rw [ih s1, hc]
      by_cases h : specFailure r <;> simp [List.countP_cons, h] <;> ring
    · simp only [consumerRun, hstep, List.take_succ_cons, List.take_zero]
      rw [hc]
      by_cases h : specFailure r <;> simp [List.countP_cons, h]
    · simp only [consumerRun, hstep, List.take_succ_cons, List.take_zero]
      rw [hc]
      by_cases h : specFailure r <;> simp [List.countP_cons, h]

lemma specBytes_nonneg (rs : List ResultRec) : 0 ≤ specBytes rs := by
  induction rs with
  | nil => simp [specBytes]
  | cons r rs ih =>
    simp only [specBytes, List.map_cons, List.sum_cons]
    have := specByte_nonneg r
    simp only [specBytes] at ih
    omega

lemma specByte_eq_zero_of_failure (r : ResultRec) (h : specFailure r = true) :
    specByte r = 0 := by
  cases r with
  | fail cause => rfl
  | resp code status cl =>
    simp only [specFailure, decide_eq_true_eq] at h
    have : ¬ (code < 400 ∧ 0 ≤ cl) := by omega
    simp [specByte, this]

/-- Link the loop variable prevStatus to the failure trace: before any
    failure has been drained prevStatus still holds its zero value; after a
    status-code failure the head of the trace carries prevStatus; a
    transport failure never heads the trace of a state the loop continues
    from (such an iteration always ends the run). -/
def headOK (l : List (FailId × Bool)) (prev : Int) : Prop :=
  match l with
  | [] => prev = 0
  | (Sum.inr c, _) :: _ => c = prev
  | (Sum.inl _, _) :: _ => False

lemma dedupOK_cons_fail (cause : String) (l : List (FailId × Bool)) (prev : Int)
    (h1 : dedupOK l = true) (h2 : headOK l prev) :
    dedupOK ((Sum.inl cause, true) :: l) = true := by
  match l with
  | [] => rfl
  | (pid, pb) :: rest =>
    match pid with
    | .inl a => exact h2.elim
    | .inr c => simp [dedupOK, h1]

lemma dedupOK_cons_status (code : Int) (l : List (FailId × Bool)) (prev : Int)
    (hcode : code ≥ 400) (h1 : dedupOK l = true) (h2 : headOK l prev) :
    dedupOK ((Sum.inr code, decide (code ≠ prev)) :: l) = true := by
  match l with
  | [] =>
    have hp : prev = 0 := h2
    have : code ≠ prev := by omega
    simp [dedupOK, this]
  | (pid, pb) :: rest =>
    match pid with
    | .inl a => exact h2.elim
    | .inr c =>
      have hc : c = prev := h2
      subst hc
      simp [dedupOK, h1]

lemma step_ftrace (maxErr : Int) (s : CState) (r : ResultRec) :
    (consumerStep maxErr s r).state.ftrace =
      match r with
      | .fail cause => (Sum.inl cause, true) :: s.ftrace
      | .resp code _ _ =>
        if code ≥ 400 then (Sum.inr code, decide (code ≠ s.prevStatus)) :: s.ftrace
        else s.ftrace := by
  cases r with
  | fail cause =>
    simp only [consumerStep, checkMaxErr]
    split <;> rfl
  | resp code status cl =>
    simp only [consumerStep, checkMaxErr]
    by_cases h : code ≥ 400
    · simp only [h, if_true]
      split <;> rfl
    · simp [h, StepRes.state]

lemma step_prevStatus (maxErr : Int) (s : CState) (r : ResultRec) :
    (consumerStep maxErr s r).state.prevStatus =
      match r with
      | .fail _ => s.prevStatus
      | .resp code _ _ => if code ≥ 400 then code else s.prevStatus := by
  cases r with
  | fail cause =>
    simp only [consumerStep, checkMaxErr]
    split <;> rfl
  | resp code status cl =>
    simp only [consumerStep, checkMaxErr]
    by_cases h : code ≥ 400
    · simp only [h, if_true]
      split <;> rfl
    · simp [h, StepRes.state]

lemma step_fail_not_next (maxErr : Int) (s : CState) (cause : String) :
    (consumerStep maxErr s (.fail cause)).isNext = false := by
  simp only [consumerStep, checkMaxErr]
  split <;> rfl

lemma dedup_run (maxErr : Int) (rs : List ResultRec) : ∀ s : CState,
    dedupOK s.ftrace = true → headOK s.ftrace s.prevStatus →
    dedupOK (consumerRun maxErr s rs).final.ftrace = true := by
  induction rs with
  | nil => intro s h1 _; simpa [consumerRun] using h1
  | cons r rs ih =>
    intro s h1 h2
    have hft := step_ftrace maxErr s r
    have hkey : dedupOK (consumerStep maxErr s r).state.ftrace = true := by
      rw [hft]
      cases r with
      | fail cause => exact dedupOK_cons_fail cause s.ftrace s.prevStatus h1 h2
      | resp code status cl =>
        by_cases hcode : code ≥ 400
        · simpa [hcode] using
            dedupOK_cons_status code s.ftrace s.prevStatus hcode h1 h2
        · simpa [hcode] using h1
    rcases hstep : consumerStep maxErr s r with s1 | s1 | s1
    · rw [hstep] at hkey hft
      simp only [StepRes.state] at hkey hft
      simp only [consumerRun, hstep]
      apply ih s1 hkey
      cases r with
      | fail cause =>
        exfalso
        have hshape := step_fail_not_next maxErr s cause
        rw [hstep] at hshape
        simp [StepRes.isNext] at hshape
      | resp code status cl =>
        have hps := step_prevStatus maxErr s (.resp code status cl)
        rw [hstep] at hps
        simp only [StepRes.state] at hps
        by_cases hcode : code ≥ 400
        · rw [hft, hps]
          simp [hcode, headOK]
        · rw [hft, hps]
          simpa [hcode] using h2
    · rw [hstep] at hkey
      simp only [StepRes.state] at hkey
      simpa [consumerRun, hstep] using hkey
    · rw [hstep] at hkey
      simp only [StepRes.state] at hkey
      simpa [consumerRun, hstep] using hkey

/-- C1: the claim fails on the code. With error threshold K = 2 and a result
    stream in which every record is a Failure (here transport errors, which
    the claim explicitly includes), the run does not terminate with
    errorCount = 2: after the first failure has been counted (numErr = 1 < 2)
    the consumer calls closeBody on a record whose embedded http.Response is
    nil and crashes with a nil-pointer dereference, with the cancellation
    signal never fired and only one of the two records drained. -/
theorem consumer_allfail_threshold_crash :
    consumer 2 [.fail "connection refused", .fail "connection refused"]
      = ⟨⟨0, 0, 0, 1, 0, 0, 0, [(Sum.inl "connection refused", true)]⟩,
         .crash, 1⟩ := rfl

/-- C2: a drained record is classified as a Failure exactly when it carries
    a transport-level error or an HTTP status code of at least 400. A
    Failure increments errorCount and leaves completedCount and totalBytes
    unchanged; a Success increments completedCount, leaves errorCount
    unchanged, and adds exactly its byte contribution to totalBytes. -/
theorem consumer_step_classification (maxErr : Int) (s : CState) (r : ResultRec) :
    (consumerStep maxErr s r).state.numErr
        = s.numErr + (if specFailure r then 1 else 0)
    ∧ (consumerStep maxErr s r).state.conns
        = s.conns + (if specFailure r then 0 else 1)
    ∧ (consumerStep maxErr s r).state.size
        = s.size + (if specFailure r then 0 else specByte r) := by
  refine ⟨step_numErr maxErr s r, step_conns maxErr s r, ?_⟩
  rw [step_size maxErr s r]
  by_cases h : specFailure r
  · simp [h, specByte_eq_zero_of_failure r h]
  · simp [h]

/-- C3: the claim fails on the code. With the unlimited sentinel maxErr = -1
    the cancellation signal is indeed never fired (killCount = 0), but the
    run does not drain the stream to its natural end: a transport-error
    Failure makes closeBody dereference a nil http.Response and crash, so
    only 1 of the 2 delivered records is processed. -/
theorem consumer_unlimited_crash_stops_drain :
    consumer (-1) [.fail "EOF", .resp 200 "200 OK" 5]
      = ⟨⟨0, 0, 0, 1, 0, 0, 0, [(Sum.inl "EOF", true)]⟩, .crash, 1⟩ := rfl

/-- C4: over any consumer run, totalBytes ends at its initial value plus the
    sum of the byte contributions of the processed records, where a Success
    contributes its byte size when non-negative and 0 otherwise (so a
    ContentLength of -1 contributes nothing) and a Failure contributes
    nothing; in particular totalBytes never decreases. -/
theorem consumer_totalBytes_clamped_sum (maxErr : Int) (s : CState)
    (rs : List ResultRec) :
    (consumerRun maxErr s rs).final.size
        = s.size + specBytes (rs.take (consumerRun maxErr s rs).processed)
    ∧ s.size ≤ (consumerRun maxErr s rs).final.size := by
  refine ⟨run_size maxErr rs s, ?_⟩
  rw [run_size maxErr rs s]
  have := specBytes_nonneg (rs.take (consumerRun maxErr s rs).processed)
  omega

/-- C5: the claim fails on the code; crash paths exist in the core after the
    run has started. A ResultRecord carrying a transport error with no
    response attached crashes the consumer (closeBody dereferences the nil
    embedded http.Response), and a failed request construction crashes the
    dispatcher (it logs the error but still calls Header.Add on the nil
    request instead of skipping the unit). -/
theorem core_crash_paths :
    (consumer 5 [.fail "read: connection reset by peer"]).outcome = .crash
    ∧ (dispatcher 1 true (fun _ => false)).crashed = true := ⟨rfl, rfl⟩

/-- C6: counterexample. With threshold 1, a single status-500 record is
    drained and discarded through the early-return-on-threshold path, yet no
    response body is ever closed (closedBodies = 0): the early return skips
    the closeBody call, refuting release on every discard path. -/
theorem consumer_early_return_skips_closeBody :
    consumer 1 [.resp 500 "500 Internal Server Error" 21]
      = ⟨⟨0, 0, 500, 1, 1, 1, 0, [(Sum.inr 500, true)]⟩, .early, 1⟩ := rfl

/-- C6 amended: the consumer releases the response body exactly on the
    iterations that continue the loop; an iteration that returns early on
    the error threshold discards its record without releasing the body (and
    on a transport-error record the close attempt itself crashes before any
    release). -/
theorem consumer_closeBody_iff_continue (maxErr : Int) (s : CState) (r : ResultRec) :
    (consumerStep maxErr s r).state.closedBodies
      = s.closedBodies + (if (consumerStep maxErr s r).isNext then 1 else 0) :=
  step_closed maxErr s r

/-- C7: over every consumer run, the trace of drained Failure records is
    rolling-deduplicated: a per-failure log line is emitted exactly when the
    failure's identifying status or cause differs from that of the
    immediately preceding Failure, and the first failure is always logged. -/
theorem consumer_failure_log_rolling_dedup (maxErr : Int) (rs : List ResultRec) :
    dedupOK (consumer maxErr rs).final.ftrace = true :=
  dedup_run maxErr rs initState rfl rfl

/-- C8: the claim fails on the code. When request construction fails (the
    same urlStr is used at every index, so it fails at index 0), the
    dispatcher logs the construction error but does not skip the unit: it
    falls through to Header.Add on the nil request and crashes, emitting
    nothing and aborting the run instead of continuing with the remaining
    descriptors. -/
theorem dispatcher_ctor_error_crashes :
    dispatcher 3 true (fun _ => false) = ⟨0, 1, true⟩ := rfl

lemma killWorkers_fills : ∀ (n capa fill : Nat), capa - fill = n → fill ≤ capa →
    killWorkers capa fill = capa := by
  intro n
  induction n with
  | zero =>
    intro capa fill h hle
    have heq : fill = capa := by omega
    subst heq
    unfold killWorkers
    simp
  | succ n ih =>
    intro capa fill h hle
    unfold killWorkers
    have hlt : fill < capa := by omega
    simp only [hlt, if_true]
    exact ih capa (fill + 1) (by omega) (by omega)

/-- C9: firing the cancellation signal terminates for every fill level of
    the quit channel (each loop iteration is a select with a default branch,
    so it never blocks; totality of the model is termination of the loop),
    leaving the channel full; invoking it a second time also terminates and
    changes nothing further, and the quit channel is created in main with
    capacity equal to the concurrency limit max. -/
theorem killWorkers_nonblocking_idempotent (max fill : Nat)
    (h : fill ≤ (mkChannels max).quitCap) :
    killWorkers (mkChannels max).quitCap fill = (mkChannels max).quitCap
    ∧ killWorkers (mkChannels max).quitCap (killWorkers (mkChannels max).quitCap fill)
        = (mkChannels max).quitCap
    ∧ (mkChannels max).quitCap = max := by
  have h1 := killWorkers_fills ((mkChannels max).quitCap - fill)
    (mkChannels max).quitCap fill rfl h
  refine ⟨h1, ?_, rfl⟩
  rw [h1]
  exact killWorkers_fills 0 (mkChannels max).quitCap (mkChannels max).quitCap
    (by omega) (le_refl _)

/-- C9 witness: the cancellation theorem applied at capacity 5 with two
    signals already pending. -/
theorem killWorkers_nonblocking_idempotent_witness :
    2 ≤ (mkChannels 5).quitCap
    ∧ (killWorkers (mkChannels 5).quitCap 2 = (mkChannels 5).quitCap
       ∧ killWorkers (mkChannels 5).quitCap (killWorkers (mkChannels 5).quitCap 2)
           = (mkChannels 5).quitCap
       ∧ (mkChannels 5).quitCap = 5) :=
  ⟨by decide, killWorkers_nonblocking_idempotent 5 2 (by decide)⟩

/-- C10: over any consumer run, completedCount ends at its initial value
    plus the number of Success records drained — byte-size validity plays no
    role in completion counting; in particular a Success whose reported
    ContentLength is -1 still increments completedCount by one while adding
    nothing to totalBytes, as the concrete second conjunct shows. -/
theorem consumer_completed_counts_successes (maxErr : Int) (s : CState)
    (rs : List ResultRec) :
    (consumerRun maxErr s rs).final.conns
        = s.conns + (countSuccess (rs.take (consumerRun maxErr s rs).processed) : Int)
    ∧ (consumer (-1) [.resp 200 "200 OK" (-1)]).final
        = ⟨1, 0, 0, 0, 0, 0, 1, []⟩ :=
  ⟨run_conns maxErr rs s, rfl⟩

example : consumer 1 [.resp 500 "500 Internal Server Error" 0] =
    ⟨⟨0, 0, 500, 1, 1, 1, 0, [(Sum.inr 500, true)]⟩, .early, 1⟩ := rfl

example : consumer 2 [.fail "x", .fail "x"] =
    ⟨⟨0, 0, 0, 1, 0, 0, 0, [(Sum.inl "x", true)]⟩, .crash, 1⟩ := rfl

example : consumer (-1) [.resp 200 "200 OK" 7, .resp 200 "200 OK" (-1)] =
    ⟨⟨2, 7, 0, 0, 0, 0, 2, []⟩, .drained, 2⟩ := rfl

example : dispatcher 3 true (fun _ => false) = ⟨0, 1, true⟩ := rfl

example : dispatcher 3 false (fun _ => false) = ⟨3, 0, false⟩ := rfl

end Tensile
